import Mathlib

/-!
# Task service: the handlers of `precode.go` over the in-memory task map

The Go program keeps one package-level map `tasks : map[string]Task` and serves
four handlers over it: `getTasks`, `postTask`, `getTask`, `deleteTask`.

Embedding.

* A Go `string` is a Lean `String`.  Every string that reaches the map comes from a
  source literal or from `json.Unmarshal`, and both only produce valid UTF-8 text; an
  id from the URL that is not valid UTF-8 is the key of no task and is not represented.
* The map is an association list with pairwise distinct keys (`AList`);
  `tasks[k]` is `AList.lookup`, `tasks[k] = v` is `AList.insert`, `delete(tasks, k)`
  is `AList.erase`.  A Go map has no order: nothing below observes the order of
  the list, `json.Marshal` sorts the keys before it writes them.
* `http.ResponseWriter` is a record of the header, the status line and the body
  written so far; each handler takes the writer and returns the writer after
  its calls, together with the map after the call.
* `json.Marshal` is written out for the two types it is called on (`Task` and
  `map[string]Task`), following `encoding/json` (Go 1.22 and later, which write
  backspace and form feed as `\b` and `\f`).
* `json.Unmarshal` is a parameter `jsonUnmarshal`: a function from the bytes of the
  body to either an error text or the decoded `Task`.  Every theorem holds for every
  such function, hence for the decoder of `encoding/json`.
-/

namespace TaskService

/-! ## Data model -/

/-- Task describes a task (Go struct `Task`).  `Applications` is a Go slice:
`none` is the nil slice, `some l` a non-nil slice with the elements `l`. -/
structure Task where
  ID : String
  Description : String
  Note : String
  Applications : Option (List String)
deriving DecidableEq, Repr

deriving instance DecidableEq for Except

/-- The type of the package-level variable `tasks`: `map[string]Task`. -/
abbrev Store := AList (fun _ : String => Task)

/-- The start set of tasks: the value the variable `tasks` has at startup. -/
def tasks : Store :=
  ((∅ : Store).insert "2"
      { ID := "2"
        Description := "Протестировать финальное задание с помощью Postmen"
        Note := "Лучше это делать в процессе разработки, каждый раз, когда запускаешь сервер и проверяешь хендлер"
        Applications := some ["VS Code", "Terminal", "git", "Postman"] }).insert "1"
      { ID := "1"
        Description := "Сделать финальное задание темы REST API"
        Note := "Если сегодня сделаю, то завтра будет свободный день. Ура!"
        Applications := some ["VS Code", "Terminal", "git"] }

/-! ## `encoding/json`: Marshal for `Task` and `map[string]Task` -/

/-- Lower-case hexadecimal digit, `hex[n]` in `encoding/json`. -/
def hex (n : Nat) : Char :=
  ['0', '1', '2', '3', '4', '5', '6', '7', '8', '9', 'a', 'b', 'c', 'd', 'e', 'f'].getD n '0'

/-- The table `htmlSafeSet` of `encoding/json` on a byte `b < 0x80`: printable
ASCII except the double quote, the ampersand, the angle brackets and the backslash. -/
def htmlSafe (b : Nat) : Bool :=
  decide (0x20 ≤ b) && (b != 0x22 && (b != 0x26 && (b != 0x3c && (b != 0x3e && b != 0x5c))))

/-- What `appendString` (with `escapeHTML` set, as `json.Marshal` does) writes for
one character of a valid UTF-8 string.  The branch of `appendString` for a byte that is
not valid UTF-8 has no counterpart: a `String` holds no such byte. -/
def escapeRune (c : Char) : String :=
  if c.toNat < 0x80 then
    if htmlSafe c.toNat then String.singleton c
    else if c.toNat = 0x5c then "\\\\"
    else if c.toNat = 0x22 then "\\\""
    else if c.toNat = 0x08 then "\\b"
    else if c.toNat = 0x0c then "\\f"
    else if c.toNat = 0x0a then "\\n"
    else if c.toNat = 0x0d then "\\r"
    else if c.toNat = 0x09 then "\\t"
    else "\\u00" ++ String.singleton (hex (c.toNat / 16)) ++ String.singleton (hex (c.toNat % 16))
  else if c.toNat = 0x2028 ∨ c.toNat = 0x2029 then
    "\\u202" ++ String.singleton (hex (c.toNat % 16))
  else String.singleton c

/-- The value of a lower-case hexadecimal digit (16 for any other character). -/
def unhex (c : Char) : Nat :=
  ['0', '1', '2', '3', '4', '5', '6', '7', '8', '9', 'a', 'b', 'c', 'd', 'e', 'f'].indexOf c

/-- Reads one escaped character back from the front of a text: the character and the
text after it.  It is the inverse of `escapeRune` and serves to show that the encoding
of a string determines the string. -/
def unescapeHead : List Char → Option (Char × List Char)
  | [] => none
  | x :: rest =>
    if x.toNat = 0x5c then
      match rest with
      | [] => none
      | y :: rest =>
        if y.toNat = 0x75 then
          match rest with
          | a :: b :: c :: d :: rest =>
            some (Char.ofNat (((unhex a * 16 + unhex b) * 16 + unhex c) * 16 + unhex d), rest)
          | _ => none
        else if y.toNat = 0x62 then some (Char.ofNat 0x08, rest)
        else if y.toNat = 0x66 then some (Char.ofNat 0x0c, rest)
        else if y.toNat = 0x6e then some (Char.ofNat 0x0a, rest)
        else if y.toNat = 0x72 then some (Char.ofNat 0x0d, rest)
        else if y.toNat = 0x74 then some (Char.ofNat 0x09, rest)
        else some (y, rest)
    else some (x, rest)

/-- The characters of a string, each one escaped. -/
def escape : List Char → String
  | [] => ""
  | c :: cs => escapeRune c ++ escape cs

/-- A Go string as a JSON string literal (`appendString` of `encoding/json`). -/
def appendString (src : String) : String :=
  "\"" ++ escape src.data ++ "\""

/-- Texts joined by commas. -/
def joinComma : List String → String
  | [] => ""
  | [x] => x
  | x :: y :: rest => x ++ "," ++ joinComma (y :: rest)

/-- A `[]string` as JSON: `null` for the nil slice, otherwise an array of string literals. -/
def encodeStrings : Option (List String) → String
  | none => "null"
  | some l => "[" ++ joinComma (l.map appendString) ++ "]"

/-- A `Task` as JSON: an object with the fields in declaration order under their tags. -/
def encodeTask (t : Task) : String :=
  "\x7b\"id\":" ++ appendString t.ID ++
  ",\"description\":" ++ appendString t.Description ++
  ",\"note\":" ++ appendString t.Note ++
  ",\"applications\":" ++ encodeStrings t.Applications ++ "\x7d"

/-- The order `json.Marshal` sorts map keys by: byte-wise comparison of the strings,
which on UTF-8 text is the lexicographic order of the code points. -/
def keyLE (a b : String × Task) : Prop := a.1.data ≤ b.1.data

instance keyLE.decidable : DecidableRel keyLE := fun a b =>
  inferInstanceAs (Decidable (a.1.data ≤ b.1.data))

instance keyLE.isTotal : IsTotal (String × Task) keyLE :=
  ⟨fun a b => le_total a.1.data b.1.data⟩

instance keyLE.isTrans : IsTrans (String × Task) keyLE :=
  ⟨fun _ _ _ h1 h2 => le_trans h1 h2⟩

/-- The key/value pairs of the map in the order `json.Marshal` writes them. -/
def sortedEntries (store : Store) : List (String × Task) :=
  (store.entries.map fun e => (e.1, e.2)).insertionSort keyLE

/-- One member of a JSON object: the key as a string literal, a colon, the task. -/
def encodeMember (e : String × Task) : String :=
  appendString e.1 ++ ":" ++ encodeTask e.2

/-- A JSON object with the given members, in the given order. -/
def encodeObject (members : List (String × Task)) : String :=
  "\x7b" ++ joinComma (members.map encodeMember) ++ "\x7d"

/-- The function `json.Marshal` on a `Task`.  The encoder has no failing case on this type
(strings and a slice of strings), so the result is always the encoded text. -/
def jsonMarshalTask (t : Task) : Except String String :=
  .ok (encodeTask t)

/-- The function `json.Marshal` on a non-nil `map[string]Task`: the members sorted by key.
The encoder has no failing case on this type. -/
def jsonMarshalTasks (store : Store) : Except String String :=
  .ok (encodeObject (sortedEntries store))

/-! ## `net/http`: the response writer and `http.Error` -/

/-- The response header, a map from field name to value. -/
abbrev Header := AList (fun _ : String => String)

/-- The state of an `http.ResponseWriter`: the header map, the status code once
`WriteHeader` has been called, and the body written so far. -/
structure ResponseWriter where
  header : Header
  status : Option Nat
  body : String
deriving DecidableEq

/-- The writer a handler receives: nothing set, nothing written. -/
def ResponseWriter.new : ResponseWriter :=
  { header := ∅, status := none, body := "" }

/-- The call `w.Header().Set(key, value)`.  Once the status line is out the header of the
response no longer changes. -/
def ResponseWriter.HeaderSet (w : ResponseWriter) (key value : String) : ResponseWriter :=
  match w.status with
  | none => { w with header := w.header.insert key value }
  | some _ => w

/-- The call `w.WriteHeader(code)`; a second call is ignored. -/
def ResponseWriter.WriteHeader (w : ResponseWriter) (code : Nat) : ResponseWriter :=
  match w.status with
  | none => { w with status := some code }
  | some _ => w

/-- The call `w.Write(data)`; without a previous `WriteHeader` the status is 200. -/
def ResponseWriter.Write (w : ResponseWriter) (data : String) : ResponseWriter :=
  { w with status := some (w.status.getD 200), body := w.body ++ data }

def StatusOK : Nat := 200
def StatusCreated : Nat := 201
def StatusBadRequest : Nat := 400
def StatusInternalServerError : Nat := 500

/-- The function `http.Error`: plain-text content type, the status code, and the
message followed by a line feed (`fmt.Fprintln`). -/
def httpError (w : ResponseWriter) (error : String) (code : Nat) : ResponseWriter :=
  let w := w.HeaderSet "Content-Type" "text/plain; charset=utf-8"
  let w := w.HeaderSet "X-Content-Type-Options" "nosniff"
  let w := w.WriteHeader code
  w.Write (error ++ "\n")

/-- The request as far as the handlers look at it: the outcome of reading `r.Body` to its
end (the bytes, or the text of the read error) and the URL parameters of the route. -/
structure Request where
  Body : Except String (List UInt8)
  URLParam : String → String

/-! ## The handlers -/

/-- The text both `getTask` and `deleteTask` answer with when the id is not in the map. -/
def notFoundMessage : String := "Задача с указанным id отсутствует"

/-- Handler `getTasks`: all tasks of the map. -/
def getTasks (w : ResponseWriter) (_r : Request) (store : Store) : ResponseWriter × Store :=
  match jsonMarshalTasks store with
  | .error err => (httpError w err StatusInternalServerError, store)
  | .ok resp =>
    let w := w.HeaderSet "Content-Type" "application/json"
    let w := w.WriteHeader StatusOK
    (w.Write resp, store)

/-- Handler `postTask`: adds the task of the request body to the map, or replaces the
task that has the same ID. -/
def postTask (jsonUnmarshal : List UInt8 → Except String Task)
    (w : ResponseWriter) (r : Request) (store : Store) : ResponseWriter × Store :=
  match r.Body with
  | .error err => (httpError w err StatusBadRequest, store)
  | .ok buf =>
    match jsonUnmarshal buf with
    | .error err => (httpError w err StatusBadRequest, store)
    | .ok task =>
      let store := store.insert task.ID task
      let w := w.HeaderSet "Content-Type" "application/json"
      (w.WriteHeader StatusCreated, store)

/-- Handler `getTask`: the task under the URL parameter `id`. -/
def getTask (w : ResponseWriter) (r : Request) (store : Store) : ResponseWriter × Store :=
  let id := r.URLParam "id"
  match store.lookup id with
  | none => (httpError w notFoundMessage StatusBadRequest, store)
  | some task =>
    match jsonMarshalTask task with
    | .error err => (httpError w err StatusBadRequest, store)
    | .ok resp =>
      let w := w.HeaderSet "Content-Type" "application/json"
      let w := w.WriteHeader StatusOK
      (w.Write resp, store)

/-- Handler `deleteTask`: removes the task under the URL parameter `id`. -/
def deleteTask (w : ResponseWriter) (r : Request) (store : Store) : ResponseWriter × Store :=
  let id := r.URLParam "id"
  match store.lookup id with
  | none => (httpError w notFoundMessage StatusBadRequest, store)
  | some _ =>
    let store := store.erase id
    let w := w.HeaderSet "Content-Type" "application/json"
    (w.WriteHeader StatusOK, store)

/-! ## Requests and runs -/

/-- The task the body of a request decodes to, when the body can be read and decoded:
the two checks `postTask` makes before it writes to the map. -/
def decoded (jsonUnmarshal : List UInt8 → Except String Task) (r : Request) : Option Task :=
  match r.Body with
  | .error _ => none
  | .ok buf =>
    match jsonUnmarshal buf with
    | .error _ => none
    | .ok task => some task

/-- A request whose URL parameter `id` is the given string (and that has no body). -/
def idRequest (id : String) : Request :=
  { Body := .ok [], URLParam := fun key => if key = "id" then id else "" }

/-- A request with the given bytes as its body (and no URL parameter). -/
def bodyRequest (body : List UInt8) : Request :=
  { Body := .ok body, URLParam := fun _ => "" }

/-- The four routes registered in `main`. -/
inductive Route where
  | getTasks
  | postTask
  | getTask
  | deleteTask
deriving DecidableEq, Repr

/-- One served request: the handler of the route, on a new writer. -/
def serve (jsonUnmarshal : List UInt8 → Except String Task)
    (store : Store) (call : Route × Request) : ResponseWriter × Store :=
  match call.1 with
  | .getTasks => getTasks ResponseWriter.new call.2 store
  | .postTask => postTask jsonUnmarshal ResponseWriter.new call.2 store
  | .getTask => getTask ResponseWriter.new call.2 store
  | .deleteTask => deleteTask ResponseWriter.new call.2 store

/-- The map after a sequence of served requests. -/
def run (jsonUnmarshal : List UInt8 → Except String Task)
    (store : Store) : List (Route × Request) → Store
  | [] => store
  | call :: rest => run jsonUnmarshal (serve jsonUnmarshal store call).2 rest

/-- The calls of a run that consists of `postTask` requests only. -/
def postCalls (rs : List Request) : List (Route × Request) :=
  rs.map fun r => (Route.postTask, r)

/-- The map after the assignments `tasks[t.ID] = t` for the tasks of a list, in order. -/
def insertAll (store : Store) (ts : List Task) : Store :=
  ts.foldl (fun s t => s.insert t.ID t) store

/-- The property that every task of the map sits under its own ID. -/
def KeysMatch (store : Store) : Prop :=
  ∀ k t, store.lookup k = some t → t.ID = k

/-- A request without body and without URL parameter. -/
def plainRequest : Request :=
  { Body := .ok [], URLParam := fun _ => "" }

/-! ## The example of the specification -/

/-- The body of the example request. -/
def exampleText : String :=
  "\x7b\"id\":\"3\",\"description\":\"x\",\"note\":\"y\",\"applications\":[\"a\"]\x7d"

/-- The task the example body describes. -/
def exampleTask : Task :=
  { ID := "3", Description := "x", Note := "y", Applications := some ["a"] }

/-- The bytes of the example body. -/
def exampleBody : List UInt8 := exampleText.toUTF8.data.toList

/-- A body whose task has the empty string as its ID. -/
def emptyIdBody : List UInt8 := "\x7b\"id\":\"\"\x7d".toUTF8.data.toList

/-- A body that is not JSON. -/
def brokenBody : List UInt8 := "\x7b\"id\":".toUTF8.data.toList

/-- A second body with the ID of the example and other field values. -/
def replacementBody : List UInt8 :=
  "\x7b\"id\":\"3\",\"description\":\"z\"\x7d".toUTF8.data.toList

/-- The task the second body describes. -/
def replacementTask : Task :=
  { ID := "3", Description := "z", Note := "", Applications := none }

/-- The task of the body with the empty ID. -/
def emptyIdTask : Task :=
  { ID := "", Description := "", Note := "", Applications := none }

/-- A stand-in for `json.Unmarshal` at which the theorems are instantiated on concrete
inputs.  On the three bodies above it returns the task that `json.Unmarshal` returns
there; every other body it rejects. -/
def sampleUnmarshal (body : List UInt8) : Except String Task :=
  if body = exampleBody then .ok exampleTask
  else if body = replacementBody then .ok replacementTask
  else if body = emptyIdBody then .ok emptyIdTask
  else .error "unexpected end of JSON input"

/-! ## Basic facts about the writer -/

theorem httpError_new (msg : String) (code : Nat) :
    httpError ResponseWriter.new msg code =
      { header := ((∅ : Header).insert "Content-Type" "text/plain; charset=utf-8").insert
          "X-Content-Type-Options" "nosniff"
        status := some code
        body := msg ++ "\n" } := by
  simp [httpError, ResponseWriter.new, ResponseWriter.HeaderSet, ResponseWriter.WriteHeader,
    ResponseWriter.Write]

theorem getTask_of_lookup_none (r : Request) (store : Store)
    (h : store.lookup (r.URLParam "id") = none) :
    getTask ResponseWriter.new r store =
      (httpError ResponseWriter.new notFoundMessage StatusBadRequest, store) := by
  simp [getTask, h]

theorem getTask_of_lookup_some (r : Request) (store : Store) (t : Task)
    (h : store.lookup (r.URLParam "id") = some t) :
    getTask ResponseWriter.new r store =
      ({ header := (∅ : Header).insert "Content-Type" "application/json"
         status := some 200
         body := encodeTask t }, store) := by
  simp [getTask, h, jsonMarshalTask, ResponseWriter.new, ResponseWriter.HeaderSet,
    ResponseWriter.WriteHeader, ResponseWriter.Write, StatusOK]

theorem deleteTask_of_lookup_none (r : Request) (store : Store)
    (h : store.lookup (r.URLParam "id") = none) :
    deleteTask ResponseWriter.new r store =
      (httpError ResponseWriter.new notFoundMessage StatusBadRequest, store) := by
  simp [deleteTask, h]

theorem deleteTask_of_lookup_some (r : Request) (store : Store) (t : Task)
    (h : store.lookup (r.URLParam "id") = some t) :
    deleteTask ResponseWriter.new r store =
      ({ header := (∅ : Header).insert "Content-Type" "application/json"
         status := some 200
         body := "" }, store.erase (r.URLParam "id")) := by
  simp [deleteTask, h, ResponseWriter.new, ResponseWriter.HeaderSet,
    ResponseWriter.WriteHeader, StatusOK]

theorem postTask_of_decoded (jsonUnmarshal : List UInt8 → Except String Task)
    (r : Request) (store : Store) (body : List UInt8) (t : Task)
    (hbody : r.Body = .ok body) (hdec : jsonUnmarshal body = .ok t) :
    postTask jsonUnmarshal ResponseWriter.new r store =
      ({ header := (∅ : Header).insert "Content-Type" "application/json"
         status := some 201
         body := "" }, store.insert t.ID t) := by
  simp [postTask, hbody, hdec, ResponseWriter.new, ResponseWriter.HeaderSet,
    ResponseWriter.WriteHeader, StatusCreated]

theorem lookup_insert_eq_ite (store : Store) (t : Task) (k : String) :
    (store.insert t.ID t).lookup k = if k = t.ID then some t else store.lookup k := by
  by_cases h : k = t.ID
  · subst h; simp
  · simp [h, AList.lookup_insert_ne h]

theorem lookup_erase_eq_ite (store : Store) (id k : String) :
    (store.erase id).lookup k = if k = id then none else store.lookup k := by
  by_cases h : k = id
  · subst h; simp
  · simp [h, AList.lookup_erase_ne h]


/-! ## The encoding determines the value -/

theorem unhex_hex (n : Nat) (h : n < 16) : unhex (hex n) = n := by
  interval_cases n <;> decide

theorem char_eq_of_toNat (c : Char) (n : Nat) (h : c.toNat = n) : c = Char.ofNat n := by
  rw [← h, Char.ofNat_toNat]

theorem unescapeHead_escapeRune (c : Char) (X : List Char) :
    unescapeHead ((escapeRune c).data ++ X) = some (c, X) := by
  unfold escapeRune
  split_ifs with h1 h2 h3 h4 h5 h6 h7 h8 h9 h10
  · have : c.toNat ≠ 0x5c := by
      intro h; rw [h] at h2; exact absurd h2 (by decide)
    simp [unescapeHead, String.singleton, this]
  · rw [char_eq_of_toNat c _ h3]; rfl
  · rw [char_eq_of_toNat c _ h4]; rfl
  · rw [char_eq_of_toNat c _ h5]; rfl
  · rw [char_eq_of_toNat c _ h6]; rfl
  · rw [char_eq_of_toNat c _ h7]; rfl
  · rw [char_eq_of_toNat c _ h8]; rfl
  · rw [char_eq_of_toNat c _ h9]; rfl
  · have e : ("\\u00" ++ String.singleton (hex (c.toNat / 16)) ++
        String.singleton (hex (c.toNat % 16))).data ++ X =
        Char.ofNat 0x5c :: 'u' :: '0' :: '0' :: hex (c.toNat / 16) :: hex (c.toNat % 16) :: X := by
      simp [String.data_append, String.singleton]
    rw [e]
    have h16 : c.toNat / 16 < 16 := by omega
    have hm : c.toNat % 16 < 16 := by omega
    have : unescapeHead (Char.ofNat 0x5c :: 'u' :: '0' :: '0' :: hex (c.toNat / 16) ::
        hex (c.toNat % 16) :: X) =
        some (Char.ofNat (((unhex '0' * 16 + unhex '0') * 16 + unhex (hex (c.toNat / 16))) * 16
          + unhex (hex (c.toNat % 16))), X) := rfl
    rw [this, unhex_hex _ h16, unhex_hex _ hm]
    have z : unhex '0' = 0 := by decide
    rw [z]
    have : (0 * 16 + 0) * 16 + c.toNat / 16 = c.toNat / 16 := by omega
    rw [this, Nat.div_add_mod', Char.ofNat_toNat]
  · rcases h10 with h | h
    · rw [char_eq_of_toNat c _ h]; rfl
    · rw [char_eq_of_toNat c _ h]; rfl
  · have : c.toNat ≠ 0x5c := by omega
    simp [unescapeHead, String.singleton, this]

theorem escapeRune_ne_quote (c : Char) (X Y : List Char) :
    (escapeRune c).data ++ X ≠ Char.ofNat 0x22 :: Y := by
  intro h
  have h1 := unescapeHead_escapeRune c X
  rw [h] at h1
  have h2 : unescapeHead (Char.ofNat 0x22 :: Y) = some (Char.ofNat 0x22, Y) := rfl
  rw [h2] at h1
  simp only [Option.some.injEq, Prod.mk.injEq] at h1
  obtain ⟨hc, -⟩ := h1
  rw [← hc] at h
  have e : (escapeRune (Char.ofNat 0x22)).data = [Char.ofNat 0x5c, Char.ofNat 0x22] := by decide
  rw [e] at h
  injection h with h3 _
  exact absurd h3 (by decide)

theorem escape_quote_cancel (a : List Char) : ∀ (b X Y : List Char),
    (escape a).data ++ Char.ofNat 0x22 :: X = (escape b).data ++ Char.ofNat 0x22 :: Y →
      a = b ∧ X = Y := by
  induction a with
  | nil =>
    intro b X Y h
    cases b with
    | nil => simpa [escape] using h
    | cons d ds =>
      simp only [escape, String.data_append, List.append_assoc] at h
      exact absurd h.symm (escapeRune_ne_quote d _ _)
  | cons c cs ih =>
    intro b X Y h
    cases b with
    | nil =>
      simp only [escape, String.data_append, List.append_assoc] at h
      exact absurd h (escapeRune_ne_quote c _ _)
    | cons d ds =>
      simp only [escape, String.data_append, List.append_assoc] at h
      have h1 := unescapeHead_escapeRune c ((escape cs).data ++ Char.ofNat 0x22 :: X)
      rw [h, unescapeHead_escapeRune] at h1
      simp only [Option.some.injEq, Prod.mk.injEq] at h1
      obtain ⟨hcd, hrest⟩ := h1
      obtain ⟨hab, hXY⟩ := ih ds X Y hrest.symm
      exact ⟨by rw [hcd, hab], hXY⟩

/-- A string literal can be read off the front of a text in one way only. -/
theorem appendString_cancel (a b : String) (X Y : List Char)
    (h : (appendString a).data ++ X = (appendString b).data ++ Y) : a = b ∧ X = Y := by
  have q : ("\"" : String).data = [Char.ofNat 0x22] := rfl
  simp only [appendString, String.data_append, List.append_assoc, q, List.singleton_append,
    List.cons_append, List.cons.injEq, true_and] at h
  obtain ⟨hab, hXY⟩ := escape_quote_cancel a.data b.data X Y h
  exact ⟨String.ext hab, hXY⟩

theorem appendString_data_head (a : String) :
    ∃ tl, (appendString a).data = Char.ofNat 0x22 :: tl :=
  ⟨(escape a.data).data ++ [Char.ofNat 0x22], by
    simp only [appendString, String.data_append]; rfl⟩

theorem joinComma_cons_cons_data (x y : String) (rest : List String) :
    (joinComma (x :: y :: rest)).data = x.data ++ ',' :: (joinComma (y :: rest)).data := by
  simp only [joinComma, String.data_append, List.append_assoc]; rfl

theorem joinComma_map_head {α : Type} (f : α → String) (head : Char)
    (hhead : ∀ a, ∃ tl, (f a).data = head :: tl) (x : α) (rest : List α) :
    ∃ tl, (joinComma ((x :: rest).map f)).data = head :: tl := by
  obtain ⟨tl, htl⟩ := hhead x
  cases rest with
  | nil => exact ⟨tl, by simpa [joinComma] using htl⟩
  | cons y r =>
    refine ⟨tl ++ ',' :: (joinComma ((y :: r).map f)).data, ?_⟩
    rw [List.map_cons, List.map_cons, joinComma_cons_cons_data, htl]; rfl

/-- A comma-separated sequence of encoded items followed by a closing bracket can be read
in one way only, when each item can and starts with a character that is not the bracket. -/
theorem joinComma_close_cancel {α : Type} (f : α → String) (head close : Char)
    (hhc : head ≠ close) (hcc : close ≠ ',')
    (hhead : ∀ a, ∃ tl, (f a).data = head :: tl)
    (hcancel : ∀ a b X Y, (f a).data ++ X = (f b).data ++ Y → a = b ∧ X = Y)
    (l : List α) : ∀ (m : List α) (X Y : List Char),
    (joinComma (l.map f)).data ++ close :: X = (joinComma (m.map f)).data ++ close :: Y →
      l = m ∧ X = Y := by
  induction l with
  | nil =>
    intro m X Y h
    cases m with
    | nil => simpa [joinComma] using h
    | cons b bs =>
      obtain ⟨tl, htl⟩ := joinComma_map_head f head hhead b bs
      rw [htl] at h
      simp only [List.map_nil, joinComma] at h
      injection h with h1 _
      exact absurd h1.symm hhc
  | cons a as ih =>
    intro m X Y h
    cases m with
    | nil =>
      obtain ⟨tl, htl⟩ := joinComma_map_head f head hhead a as
      rw [htl] at h
      simp only [List.map_nil, joinComma] at h
      injection h with h1 _
      exact absurd h1 hhc
    | cons b bs =>
      cases as with
      | nil =>
        cases bs with
        | nil =>
          simp only [List.map_cons, List.map_nil, joinComma] at h
          obtain ⟨hab, hXY⟩ := hcancel a b _ _ h
          injection hXY with _ hXY
          exact ⟨by rw [hab], hXY⟩
        | cons b2 r2 =>
          simp only [List.map_cons, List.map_nil] at h
          rw [joinComma_cons_cons_data] at h
          simp only [joinComma, List.append_assoc] at h
          obtain ⟨-, hXY⟩ := hcancel a b _ _ h
          simp only [List.cons_append] at hXY
          injection hXY with h1 _
          exact absurd h1 hcc
      | cons a2 r =>
        cases bs with
        | nil =>
          simp only [List.map_cons, List.map_nil] at h
          rw [joinComma_cons_cons_data] at h
          simp only [joinComma, List.append_assoc] at h
          obtain ⟨-, hXY⟩ := hcancel a b _ _ h
          simp only [List.cons_append] at hXY
          injection hXY with h1 _
          exact absurd h1.symm hcc
        | cons b2 r2 =>
          simp only [List.map_cons, joinComma_cons_cons_data, List.append_assoc] at h
          obtain ⟨hab, hXY⟩ := hcancel a b _ _ h
          simp only [List.cons_append] at hXY
          injection hXY with _ hXY
          obtain ⟨hl, hXY⟩ := ih (b2 :: r2) X Y (by simpa [List.map_cons] using hXY)
          exact ⟨by rw [hab, hl], hXY⟩

theorem encodeStrings_cancel (a b : Option (List String)) (X Y : List Char)
    (h : (encodeStrings a).data ++ Char.ofNat 0x7d :: X =
      (encodeStrings b).data ++ Char.ofNat 0x7d :: Y) : a = b ∧ X = Y := by
  cases a with
  | none =>
    cases b with
    | none =>
      simp only [encodeStrings] at h
      exact ⟨rfl, by injection (List.append_cancel_left h)⟩
    | some m =>
      simp only [encodeStrings, String.data_append, List.append_assoc] at h
      injection h with h1 _
      exact absurd h1 (by decide)
  | some l =>
    cases b with
    | none =>
      simp only [encodeStrings, String.data_append, List.append_assoc] at h
      injection h with h1 _
      exact absurd h1 (by decide)
    | some m =>
      simp only [encodeStrings, String.data_append, List.append_assoc] at h
      injection h with _ h
      obtain ⟨hl, hXY⟩ := joinComma_close_cancel appendString (Char.ofNat 0x22) ']'
        (by decide) (by decide) appendString_data_head appendString_cancel l m _ _ h
      injection hXY with _ hXY
      exact ⟨by rw [hl], hXY⟩

/-- An encoded task can be read off the front of a text in one way only. -/
theorem encodeTask_cancel (s t : Task) (X Y : List Char)
    (h : (encodeTask s).data ++ X = (encodeTask t).data ++ Y) : s = t ∧ X = Y := by
  simp only [encodeTask, String.data_append, List.append_assoc] at h
  have h := List.append_cancel_left h
  obtain ⟨hid, h⟩ := appendString_cancel _ _ _ _ h
  have h := List.append_cancel_left h
  obtain ⟨hdesc, h⟩ := appendString_cancel _ _ _ _ h
  have h := List.append_cancel_left h
  obtain ⟨hnote, h⟩ := appendString_cancel _ _ _ _ h
  have h := List.append_cancel_left h
  obtain ⟨happ, hXY⟩ := encodeStrings_cancel _ _ X Y h
  cases s; cases t
  simp only [Task.mk.injEq]
  exact ⟨⟨hid, hdesc, hnote, happ⟩, hXY⟩

/-- Two tasks with the same JSON text are the same task. -/
theorem encodeTask_injective : Function.Injective encodeTask := by
  intro s t h
  exact (encodeTask_cancel s t [] [] (by rw [h])).1

theorem encodeMember_cancel (a b : String × Task) (X Y : List Char)
    (h : (encodeMember a).data ++ X = (encodeMember b).data ++ Y) : a = b ∧ X = Y := by
  simp only [encodeMember, String.data_append, List.append_assoc] at h
  obtain ⟨hk, h⟩ := appendString_cancel _ _ _ _ h
  have h := List.append_cancel_left h
  obtain ⟨ht, hXY⟩ := encodeTask_cancel _ _ _ _ h
  exact ⟨Prod.ext hk ht, hXY⟩

theorem encodeMember_data_head (a : String × Task) :
    ∃ tl, (encodeMember a).data = Char.ofNat 0x22 :: tl := by
  obtain ⟨tl, htl⟩ := appendString_data_head a.1
  exact ⟨tl ++ (":" ++ encodeTask a.2).data, by
    simp only [encodeMember, String.data_append, List.append_assoc, htl, List.cons_append]⟩

/-- Two member lists with the same JSON text are the same list. -/
theorem encodeObject_injective : Function.Injective encodeObject := by
  intro l m h
  have h := congrArg String.data h
  simp only [encodeObject, String.data_append, List.append_assoc] at h
  have h := List.append_cancel_left h
  exact (joinComma_close_cancel encodeMember (Char.ofNat 0x22) (Char.ofNat 0x7d)
    (by decide) (by decide) encodeMember_data_head encodeMember_cancel l m [] [] h).1

/-! ## The members `json.Marshal` writes for the map -/

theorem mem_sortedEntries (store : Store) (k : String) (t : Task) :
    (k, t) ∈ sortedEntries store ↔ store.lookup k = some t := by
  unfold sortedEntries
  rw [List.mem_insertionSort, ← Option.mem_def, AList.mem_lookup_iff]
  constructor
  · intro h
    obtain ⟨e, he, hkt⟩ := List.mem_map.1 h
    cases e with
    | mk a b =>
      simp only [Prod.mk.injEq] at hkt
      obtain ⟨rfl, rfl⟩ := hkt
      exact he
  · intro h
    exact List.mem_map.2 ⟨⟨k, t⟩, h, rfl⟩

theorem sortedEntries_keys_perm (store : Store) :
    ((sortedEntries store).map Prod.fst).Perm store.keys := by
  unfold sortedEntries
  refine ((List.perm_insertionSort keyLE _).map Prod.fst).trans ?_
  rw [List.map_map]
  exact List.Perm.refl _

theorem sortedEntries_keys_nodup (store : Store) :
    ((sortedEntries store).map Prod.fst).Nodup :=
  (sortedEntries_keys_perm store).nodup_iff.2 store.keys_nodup

theorem sortedEntries_length (store : Store) :
    (sortedEntries store).length = store.keys.length := by
  have h := (sortedEntries_keys_perm store).length_eq
  simpa using h

/-- The members are written in ascending order of their keys. -/
theorem sortedEntries_sorted (store : Store) : (sortedEntries store).Sorted keyLE :=
  List.sorted_insertionSort keyLE _

/-- The order `keyLE` is the order of `String`. -/
theorem keyLE_iff (a b : String × Task) : keyLE a b ↔ a.1 ≤ b.1 := by
  unfold keyLE
  rw [← not_lt, ← not_lt, String.lt_iff_toList_lt]
  rfl

/-- The members written do not depend on the order in which the association list holds
the entries: two lists with the same entries give the same members in the same order. -/
theorem sortedEntries_of_perm (s₁ s₂ : Store) (h : s₁.entries.Perm s₂.entries) :
    sortedEntries s₁ = sortedEntries s₂ := by
  have strict : ∀ s : Store,
      (sortedEntries s).Pairwise (fun a b => a.1.data < b.1.data) := by
    intro s
    have h1 : (sortedEntries s).Pairwise keyLE := sortedEntries_sorted s
    have h2 : (sortedEntries s).Pairwise (fun a b => a.1 ≠ b.1) :=
      List.pairwise_map.1 (sortedEntries_keys_nodup s)
    refine (h1.and h2).imp ?_
    intro a b hab
    refine lt_of_le_of_ne hab.1 ?_
    intro hd
    exact hab.2 (String.ext hd)
  have hperm : (sortedEntries s₁).Perm (sortedEntries s₂) := by
    unfold sortedEntries
    refine (List.perm_insertionSort keyLE _).trans ?_
    refine List.Perm.trans ?_ (List.perm_insertionSort keyLE _).symm
    exact h.map _
  haveI : IsAntisymm (String × Task) (fun a b => a.1.data < b.1.data) :=
    ⟨fun a b hab hba => absurd hba (lt_asymm hab)⟩
  exact List.eq_of_perm_of_sorted hperm (strict s₁) (strict s₂)

/-! ## The map after each handler -/

theorem getTasks_new (r : Request) (store : Store) :
    getTasks ResponseWriter.new r store =
      ({ header := (∅ : Header).insert "Content-Type" "application/json"
         status := some 200
         body := encodeObject (sortedEntries store) }, store) := by
  simp [getTasks, jsonMarshalTasks, ResponseWriter.new, ResponseWriter.HeaderSet,
    ResponseWriter.WriteHeader, ResponseWriter.Write, StatusOK]

theorem postTask_of_not_decoded (jsonUnmarshal : List UInt8 → Except String Task)
    (w : ResponseWriter) (r : Request) (store : Store)
    (h : decoded jsonUnmarshal r = none) :
    (postTask jsonUnmarshal w r store).2 = store := by
  cases hb : r.Body with
  | error e => simp [postTask, hb]
  | ok buf =>
    cases hd : jsonUnmarshal buf with
    | error e => simp [postTask, hb, hd]
    | ok t => simp [decoded, hb, hd] at h

theorem postTask_of_decoded_some (jsonUnmarshal : List UInt8 → Except String Task)
    (w : ResponseWriter) (r : Request) (store : Store) (t : Task)
    (h : decoded jsonUnmarshal r = some t) :
    (postTask jsonUnmarshal w r store).2 = store.insert t.ID t := by
  cases hb : r.Body with
  | error e => simp [decoded, hb] at h
  | ok buf =>
    cases hd : jsonUnmarshal buf with
    | error e => simp [decoded, hb, hd] at h
    | ok u =>
      simp only [decoded, hb, hd, Option.some.injEq] at h
      subst h
      simp [postTask, hb, hd]

theorem decoded_of_body (jsonUnmarshal : List UInt8 → Except String Task)
    (r : Request) (body : List UInt8) (t : Task)
    (hbody : r.Body = .ok body) (hdec : jsonUnmarshal body = .ok t) :
    decoded jsonUnmarshal r = some t := by
  simp [decoded, hbody, hdec]

theorem getTask_store (w : ResponseWriter) (r : Request) (store : Store) :
    (getTask w r store).2 = store := by
  cases h : store.lookup (r.URLParam "id") <;> simp [getTask, h, jsonMarshalTask]

theorem deleteTask_store (w : ResponseWriter) (r : Request) (store : Store) :
    (deleteTask w r store).2 = store ∨
      (deleteTask w r store).2 = store.erase (r.URLParam "id") := by
  cases h : store.lookup (r.URLParam "id")
  · exact Or.inl (by simp [deleteTask, h])
  · exact Or.inr (by simp [deleteTask, h])

theorem keysMatch_insert (store : Store) (t : Task) (h : KeysMatch store) :
    KeysMatch (store.insert t.ID t) := by
  intro k u hu
  rw [lookup_insert_eq_ite] at hu
  by_cases hk : k = t.ID
  · simp only [hk, if_true, Option.some.injEq] at hu
    rw [← hu, hk]
  · simp only [hk, if_false] at hu
    exact h k u hu

theorem keysMatch_erase (store : Store) (id : String) (h : KeysMatch store) :
    KeysMatch (store.erase id) := by
  intro k u hu
  rw [lookup_erase_eq_ite] at hu
  by_cases hk : k = id
  · simp [hk] at hu
  · simp only [hk, if_false] at hu
    exact h k u hu

theorem keysMatch_tasks : KeysMatch tasks := by
  intro k t h
  have h1 : (k, t) ∈ sortedEntries tasks := (mem_sortedEntries tasks k t).2 h
  have h2 : ∀ e ∈ sortedEntries tasks, e.2.ID = e.1 := by decide
  exact h2 (k, t) h1

theorem keysMatch_serve (jsonUnmarshal : List UInt8 → Except String Task)
    (store : Store) (call : Route × Request) (h : KeysMatch store) :
    KeysMatch (serve jsonUnmarshal store call).2 := by
  obtain ⟨route, r⟩ := call
  cases route with
  | getTasks =>
    show KeysMatch (getTasks ResponseWriter.new r store).2
    rw [getTasks_new]; exact h
  | postTask =>
    show KeysMatch (postTask jsonUnmarshal ResponseWriter.new r store).2
    cases hd : decoded jsonUnmarshal r with
    | none => rw [postTask_of_not_decoded _ _ _ _ hd]; exact h
    | some t => rw [postTask_of_decoded_some _ _ _ _ t hd]; exact keysMatch_insert store t h
  | getTask =>
    show KeysMatch (getTask ResponseWriter.new r store).2
    rw [getTask_store]; exact h
  | deleteTask =>
    show KeysMatch (deleteTask ResponseWriter.new r store).2
    rcases deleteTask_store ResponseWriter.new r store with e | e
    · rw [e]; exact h
    · rw [e]; exact keysMatch_erase store _ h

theorem keysMatch_run (jsonUnmarshal : List UInt8 → Except String Task)
    (calls : List (Route × Request)) : ∀ store : Store, KeysMatch store →
    KeysMatch (run jsonUnmarshal store calls) := by
  induction calls with
  | nil => intro store h; exact h
  | cons call rest ih =>
    intro store h
    exact ih _ (keysMatch_serve jsonUnmarshal store call h)

/-! ## The map after a run of `postTask` calls -/

theorem run_postCalls (jsonUnmarshal : List UInt8 → Except String Task)
    (rs : List Request) : ∀ (ts : List Task) (store : Store),
    rs.map (decoded jsonUnmarshal) = ts.map some →
    run jsonUnmarshal store (postCalls rs) = insertAll store ts := by
  induction rs with
  | nil =>
    intro ts store h
    cases ts with
    | nil => rfl
    | cons t ts => simp at h
  | cons r rs ih =>
    intro ts store h
    cases ts with
    | nil => simp at h
    | cons t ts =>
      simp only [List.map_cons, List.cons.injEq] at h
      obtain ⟨hr, hrest⟩ := h
      show run jsonUnmarshal (postTask jsonUnmarshal ResponseWriter.new r store).2 (postCalls rs)
        = insertAll (store.insert t.ID t) ts
      rw [postTask_of_decoded_some _ _ _ _ t hr]
      exact ih ts _ hrest

theorem mem_insertAll (ts : List Task) : ∀ (store : Store) (k : String),
    k ∈ insertAll store ts ↔ k ∈ ts.map Task.ID ∨ k ∈ store := by
  induction ts with
  | nil => intro store k; simp [insertAll]
  | cons t ts ih =>
    intro store k
    show k ∈ insertAll (store.insert t.ID t) ts ↔ _
    rw [ih, AList.mem_insert, List.map_cons, List.mem_cons]
    tauto

theorem lookup_insertAll_of_not_mem (ts : List Task) : ∀ (store : Store) (k : String),
    k ∉ ts.map Task.ID → (insertAll store ts).lookup k = store.lookup k := by
  induction ts with
  | nil => intro store k _; rfl
  | cons t ts ih =>
    intro store k hk
    simp only [List.map_cons, List.mem_cons, not_or] at hk
    show (insertAll (store.insert t.ID t) ts).lookup k = _
    rw [ih _ k hk.2, AList.lookup_insert_ne hk.1]

theorem lookup_insertAll_of_mem (ts : List Task) : ∀ (store : Store),
    (ts.map Task.ID).Nodup → ∀ t ∈ ts, (insertAll store ts).lookup t.ID = some t := by
  induction ts with
  | nil => intro store _ t ht; simp at ht
  | cons u ts ih =>
    intro store hnd t ht
    simp only [List.map_cons, List.nodup_cons] at hnd
    show (insertAll (store.insert u.ID u) ts).lookup t.ID = some t
    rcases List.mem_cons.1 ht with rfl | ht
    · rw [lookup_insertAll_of_not_mem ts _ _ hnd.1, AList.lookup_insert]
    · exact ih _ hnd.2 t ht

theorem keys_insertAll_perm (ts : List Task) (store : Store) (hnd : (ts.map Task.ID).Nodup) :
    (insertAll store ts).keys.Perm
      (ts.map Task.ID ++ store.keys.filter fun k => decide (k ∉ ts.map Task.ID)) := by
  rw [List.perm_ext_iff_of_nodup (AList.keys_nodup _)]
  · intro k
    rw [← AList.mem_keys, mem_insertAll, List.mem_append, List.mem_filter, AList.mem_keys]
    simp only [decide_eq_true_eq]
    tauto
  · refine List.Nodup.append hnd (store.keys_nodup.filter _) ?_
    intro k hk hk2
    rw [List.mem_filter] at hk2
    simp only [decide_eq_true_eq] at hk2
    exact hk2.2 hk

/-! ## Facts about the example -/

theorem encodeTask_exampleTask : encodeTask exampleTask = exampleText := by decide

theorem appendString_sample :
    appendString "a\"b\\c<d\n\x01\x7f" = "\"a\\\"b\\\\c\\u003cd\\n\\u0001\x7f\"" := by decide

/-- The example of the specification, step by step: POST answers 201, GET of the ID answers
200 with the text of the body, DELETE answers 200, and the next GET answers 400. -/
theorem example_run :
    (postTask sampleUnmarshal .new (bodyRequest exampleBody) tasks).1.status = some 201 ∧
    (getTask .new (idRequest "3")
      (postTask sampleUnmarshal .new (bodyRequest exampleBody) tasks).2).1.status = some 200 ∧
    (getTask .new (idRequest "3")
      (postTask sampleUnmarshal .new (bodyRequest exampleBody) tasks).2).1.body = exampleText ∧
    (deleteTask .new (idRequest "3")
      (postTask sampleUnmarshal .new (bodyRequest exampleBody) tasks).2).1.status = some 200 ∧
    (getTask .new (idRequest "3") (deleteTask .new (idRequest "3")
      (postTask sampleUnmarshal .new (bodyRequest exampleBody) tasks).2).2).1.status
        = some 400 := by
  decide

theorem notFoundMessage_line :
    notFoundMessage ++ "\n" = "Задача с указанным id отсутствует\n" := by decide

theorem errorHeader_contentType :
    (((∅ : Header).insert "Content-Type" "text/plain; charset=utf-8").insert
      "X-Content-Type-Options" "nosniff").lookup "Content-Type"
        = some "text/plain; charset=utf-8" := by decide

theorem jsonHeader_contentType :
    ((∅ : Header).insert "Content-Type" "application/json").lookup "Content-Type"
      = some "application/json" := by decide

theorem lookup_none_of_not_mem (store : Store) (k : String) (h : k ∉ store) :
    store.lookup k = none :=
  AList.lookup_eq_none.2 h

theorem lookup_some_of_mem (store : Store) (k : String) (h : k ∈ store) :
    ∃ t, store.lookup k = some t :=
  Option.isSome_iff_exists.1 (AList.lookup_isSome.2 h)

/-! ## The claims -/

/-- C1. Round trip of create then fetch: for every map, when the body of a `postTask`
request decodes to a task `t`, a following `getTask` with URL parameter `id = t.ID` answers
200 with the JSON text of `t`; a task whose JSON text is that body has the id, description,
note and applications of `t`; and when the body is the example body of the specification,
decoding to the example task, the bytes of the GET body are the bytes of the POST body. -/
theorem postTask_getTask_roundtrip (jsonUnmarshal : List UInt8 → Except String Task)
    (store : Store) (post get : Request) (body : List UInt8) (t : Task)
    (hbody : post.Body = .ok body) (hdec : jsonUnmarshal body = .ok t)
    (hid : get.URLParam "id" = t.ID) :
    (getTask .new get (postTask jsonUnmarshal .new post store).2).1.status = some 200 ∧
    (getTask .new get (postTask jsonUnmarshal .new post store).2).1.body = encodeTask t ∧
    (∀ u : Task,
      (getTask .new get (postTask jsonUnmarshal .new post store).2).1.body = encodeTask u →
        u.ID = t.ID ∧ u.Description = t.Description ∧ u.Note = t.Note ∧
          u.Applications = t.Applications) ∧
    (body = exampleBody → t = exampleTask →
      (getTask .new get (postTask jsonUnmarshal .new post store).2).1.body.toUTF8.data.toList
        = body) := by
  have hl : ((postTask jsonUnmarshal .new post store).2).lookup (get.URLParam "id") = some t := by
    rw [postTask_of_decoded jsonUnmarshal post store body t hbody hdec, hid]
    exact AList.lookup_insert _
  rw [getTask_of_lookup_some _ _ t hl]
  refine ⟨rfl, rfl, ?_, ?_⟩
  · intro u hu
    have := encodeTask_injective hu
    subst this
    exact ⟨rfl, rfl, rfl, rfl⟩
  · intro hb ht
    subst hb ht
    show (encodeTask exampleTask).toUTF8.data.toList = exampleBody
    rw [encodeTask_exampleTask]
    rfl

theorem postTask_getTask_roundtrip_witness :
    (bodyRequest exampleBody).Body = .ok exampleBody ∧
    sampleUnmarshal exampleBody = .ok exampleTask ∧
    (idRequest "3").URLParam "id" = exampleTask.ID ∧
    (getTask .new (idRequest "3")
      (postTask sampleUnmarshal .new (bodyRequest exampleBody) tasks).2).1.status = some 200 ∧
    (getTask .new (idRequest "3")
      (postTask sampleUnmarshal .new (bodyRequest exampleBody) tasks).2).1.body = exampleText :=
  ⟨rfl, by decide, by decide,
    (postTask_getTask_roundtrip sampleUnmarshal tasks (bodyRequest exampleBody) (idRequest "3")
      exampleBody exampleTask rfl (by decide) (by decide)).1,
    ((postTask_getTask_roundtrip sampleUnmarshal tasks (bodyRequest exampleBody) (idRequest "3")
      exampleBody exampleTask rfl (by decide) (by decide)).2.1).trans encodeTask_exampleTask⟩

/-- C2. Effect of create/replace: for every map, when the body of the request decodes
without error to a task `t` (the ID of `t` may be the empty string), `postTask` answers 201
with an empty body, and in the map after the call the key `t.ID` holds `t` and every other
key holds what it held before. -/
theorem postTask_effect (jsonUnmarshal : List UInt8 → Except String Task)
    (store : Store) (r : Request) (body : List UInt8) (t : Task)
    (hbody : r.Body = .ok body) (hdec : jsonUnmarshal body = .ok t) :
    (postTask jsonUnmarshal .new r store).1.status = some 201 ∧
    (postTask jsonUnmarshal .new r store).1.body = "" ∧
    (postTask jsonUnmarshal .new r store).2.lookup t.ID = some t ∧
    (∀ k, k ≠ t.ID → (postTask jsonUnmarshal .new r store).2.lookup k = store.lookup k) ∧
    (∀ k, k ∈ (postTask jsonUnmarshal .new r store).2 ↔ k = t.ID ∨ k ∈ store) := by
  rw [postTask_of_decoded jsonUnmarshal r store body t hbody hdec]
  refine ⟨rfl, rfl, AList.lookup_insert _, ?_, ?_⟩
  · intro k hk
    exact AList.lookup_insert_ne hk
  · intro k
    exact AList.mem_insert store

theorem postTask_effect_witness :
    (bodyRequest emptyIdBody).Body = .ok emptyIdBody ∧
    sampleUnmarshal emptyIdBody = .ok emptyIdTask ∧
    (postTask sampleUnmarshal .new (bodyRequest emptyIdBody) tasks).1.status = some 201 ∧
    (postTask sampleUnmarshal .new (bodyRequest emptyIdBody) tasks).2.lookup "" =
      some emptyIdTask :=
  ⟨rfl, by decide,
    (postTask_effect sampleUnmarshal tasks (bodyRequest emptyIdBody) emptyIdBody emptyIdTask
      rfl (by decide)).1,
    (postTask_effect sampleUnmarshal tasks (bodyRequest emptyIdBody) emptyIdBody emptyIdTask
      rfl (by decide)).2.2.1⟩

/-- C3. Malformed-body rejection is atomic: for every map, when the body of the request
cannot be read or cannot be decoded into a task, `postTask` answers 400 with the error
text, and the map after the call is the map before it. -/
theorem postTask_malformed (jsonUnmarshal : List UInt8 → Except String Task)
    (store : Store) (r : Request) (err : String)
    (h : r.Body = .error err ∨ ∃ body, r.Body = .ok body ∧ jsonUnmarshal body = .error err) :
    (postTask jsonUnmarshal .new r store).1.status = some 400 ∧
    (postTask jsonUnmarshal .new r store).1.body = err ++ "\n" ∧
    (postTask jsonUnmarshal .new r store).2 = store := by
  have e : postTask jsonUnmarshal .new r store =
      (httpError .new err StatusBadRequest, store) := by
    rcases h with h | ⟨body, hb, hd⟩
    · simp [postTask, h]
    · simp [postTask, hb, hd]
  rw [e, httpError_new]
  exact ⟨rfl, rfl, rfl⟩

theorem postTask_malformed_witness :
    ((bodyRequest brokenBody).Body = .error "unexpected end of JSON input" ∨
      ∃ body, (bodyRequest brokenBody).Body = .ok body ∧
        sampleUnmarshal body = .error "unexpected end of JSON input") ∧
    (postTask sampleUnmarshal .new (bodyRequest brokenBody) tasks).1.status = some 400 ∧
    (postTask sampleUnmarshal .new (bodyRequest brokenBody) tasks).2 = tasks :=
  ⟨Or.inr ⟨brokenBody, rfl, by decide⟩,
    (postTask_malformed sampleUnmarshal tasks (bodyRequest brokenBody)
      "unexpected end of JSON input" (Or.inr ⟨brokenBody, rfl, by decide⟩)).1,
    (postTask_malformed sampleUnmarshal tasks (bodyRequest brokenBody)
      "unexpected end of JSON input" (Or.inr ⟨brokenBody, rfl, by decide⟩)).2.2⟩

/-- C4. Overwrite (last write wins): for every map and every two tasks `t1`, `t2` with the
same ID, after `postTask` of `t1` and then `postTask` of `t2`, `getTask` with that ID answers
200 with the JSON text of `t2`, which is not the JSON text of `t1` unless the tasks are equal;
the map holds `t2` under the ID, and its keys are the keys it had after the first post. -/
theorem postTask_overwrite (jsonUnmarshal : List UInt8 → Except String Task)
    (store : Store) (p1 p2 get : Request) (b1 b2 : List UInt8) (t1 t2 : Task)
    (hb1 : p1.Body = .ok b1) (hd1 : jsonUnmarshal b1 = .ok t1)
    (hb2 : p2.Body = .ok b2) (hd2 : jsonUnmarshal b2 = .ok t2)
    (hsame : t1.ID = t2.ID) (hid : get.URLParam "id" = t2.ID) :
    (getTask .new get (postTask jsonUnmarshal .new p2
      (postTask jsonUnmarshal .new p1 store).2).2).1.status = some 200 ∧
    (getTask .new get (postTask jsonUnmarshal .new p2
      (postTask jsonUnmarshal .new p1 store).2).2).1.body = encodeTask t2 ∧
    (t1 ≠ t2 → (getTask .new get (postTask jsonUnmarshal .new p2
      (postTask jsonUnmarshal .new p1 store).2).2).1.body ≠ encodeTask t1) ∧
    (postTask jsonUnmarshal .new p2 (postTask jsonUnmarshal .new p1 store).2).2.lookup t2.ID
      = some t2 ∧
    (postTask jsonUnmarshal .new p2 (postTask jsonUnmarshal .new p1 store).2).2.keys
      = (postTask jsonUnmarshal .new p1 store).2.keys := by
  rw [postTask_of_decoded jsonUnmarshal p1 store b1 t1 hb1 hd1,
    postTask_of_decoded jsonUnmarshal p2 _ b2 t2 hb2 hd2]
  have hl : ((store.insert t1.ID t1).insert t2.ID t2).lookup (get.URLParam "id") = some t2 := by
    rw [hid]; exact AList.lookup_insert _
  rw [getTask_of_lookup_some _ _ t2 hl]
  refine ⟨rfl, rfl, ?_, AList.lookup_insert _, ?_⟩
  · intro hne heq
    exact hne (encodeTask_injective heq).symm
  · show ((store.insert t1.ID t1).insert t2.ID t2).keys = (store.insert t1.ID t1).keys
    rw [AList.keys_insert, AList.keys_insert, ← hsame, List.erase_cons_head]

theorem postTask_overwrite_witness :
    (bodyRequest exampleBody).Body = .ok exampleBody ∧
    sampleUnmarshal exampleBody = .ok exampleTask ∧
    (bodyRequest replacementBody).Body = .ok replacementBody ∧
    sampleUnmarshal replacementBody = .ok replacementTask ∧
    exampleTask.ID = replacementTask.ID ∧
    (idRequest "3").URLParam "id" = replacementTask.ID ∧
    (getTask .new (idRequest "3") (postTask sampleUnmarshal .new (bodyRequest replacementBody)
      (postTask sampleUnmarshal .new (bodyRequest exampleBody) tasks).2).2).1.body
        = encodeTask replacementTask :=
  ⟨rfl, by decide, rfl, by decide, by decide, by decide,
    (postTask_overwrite sampleUnmarshal tasks (bodyRequest exampleBody)
      (bodyRequest replacementBody) (idRequest "3") exampleBody replacementBody
      exampleTask replacementTask rfl (by decide) rfl (by decide) (by decide) (by decide)).2.1⟩

/-- C5. Delete of a present task: for every map and every id that is a key of it,
`deleteTask` answers 200 with an empty body, the map after the call has lost the key id and
holds under every other key what it held before, and a following `getTask` with the same id
answers 400. -/
theorem deleteTask_present (store : Store) (r get : Request)
    (hin : r.URLParam "id" ∈ store) (hid : get.URLParam "id" = r.URLParam "id") :
    (deleteTask .new r store).1.status = some 200 ∧
    (deleteTask .new r store).1.body = "" ∧
    (deleteTask .new r store).2.lookup (r.URLParam "id") = none ∧
    (∀ k, k ≠ r.URLParam "id" → (deleteTask .new r store).2.lookup k = store.lookup k) ∧
    (∀ k, k ∈ (deleteTask .new r store).2 ↔ k ≠ r.URLParam "id" ∧ k ∈ store) ∧
    (getTask .new get (deleteTask .new r store).2).1.status = some 400 := by
  obtain ⟨t, ht⟩ := lookup_some_of_mem store _ hin
  rw [deleteTask_of_lookup_some r store t ht]
  have hl : (store.erase (r.URLParam "id")).lookup (get.URLParam "id") = none := by
    rw [hid]; exact AList.lookup_erase _ _
  rw [getTask_of_lookup_none get _ hl, httpError_new]
  refine ⟨rfl, rfl, AList.lookup_erase _ _, ?_, ?_, rfl⟩
  · intro k hk
    exact AList.lookup_erase_ne hk
  · intro k
    exact AList.mem_erase

theorem deleteTask_present_witness :
    (idRequest "1").URLParam "id" ∈ tasks ∧
    (idRequest "1").URLParam "id" = (idRequest "1").URLParam "id" ∧
    (deleteTask .new (idRequest "1") tasks).1.status = some 200 ∧
    (getTask .new (idRequest "1") (deleteTask .new (idRequest "1") tasks).2).1.status
      = some 400 :=
  ⟨by decide, rfl,
    (deleteTask_present tasks (idRequest "1") (idRequest "1") (by decide) rfl).1,
    (deleteTask_present tasks (idRequest "1") (idRequest "1") (by decide) rfl).2.2.2.2.2⟩

/-- C6. Idempotence of delete on a missing ID: for every map and every id that is not a key
of it, `deleteTask` answers with the not-found failure (status 400, the fixed message) and
leaves the map as it was, so that a second `deleteTask` of the same id gives the same answer
and the same map; and for every id, present or not, the second of two `deleteTask` calls in
a row answers with the not-found failure. -/
theorem deleteTask_missing_idempotent (store : Store) (r : Request) :
    (r.URLParam "id" ∉ store →
      (deleteTask .new r store).1.status = some 400 ∧
      (deleteTask .new r store).1.body = notFoundMessage ++ "\n" ∧
      (deleteTask .new r store).2 = store ∧
      deleteTask .new r (deleteTask .new r store).2 = deleteTask .new r store) ∧
    (deleteTask .new r (deleteTask .new r store).2).1.status = some 400 ∧
    (deleteTask .new r (deleteTask .new r store).2).1.body = notFoundMessage ++ "\n" := by
  constructor
  · intro h
    have hl := lookup_none_of_not_mem store _ h
    rw [deleteTask_of_lookup_none r store hl, httpError_new]
    refine ⟨rfl, rfl, rfl, ?_⟩
    show deleteTask .new r store = _
    rw [deleteTask_of_lookup_none r store hl, httpError_new]
  · cases hl : store.lookup (r.URLParam "id") with
    | none =>
      rw [deleteTask_of_lookup_none r store hl]
      show (deleteTask .new r store).1.status = _ ∧ (deleteTask .new r store).1.body = _
      rw [deleteTask_of_lookup_none r store hl, httpError_new]
      exact ⟨rfl, rfl⟩
    | some t =>
      rw [deleteTask_of_lookup_some r store t hl]
      have hl2 : (store.erase (r.URLParam "id")).lookup (r.URLParam "id") = none :=
        AList.lookup_erase _ _
      show (deleteTask .new r (store.erase (r.URLParam "id"))).1.status = _ ∧
        (deleteTask .new r (store.erase (r.URLParam "id"))).1.body = _
      rw [deleteTask_of_lookup_none r _ hl2, httpError_new]
      exact ⟨rfl, rfl⟩

theorem deleteTask_missing_idempotent_witness :
    (idRequest "7").URLParam "id" ∉ tasks ∧
    (deleteTask .new (idRequest "7") tasks).1.status = some 400 ∧
    (deleteTask .new (idRequest "7") tasks).2 = tasks ∧
    (deleteTask .new (idRequest "1") (deleteTask .new (idRequest "1") tasks).2).1.status
      = some 400 :=
  ⟨by decide,
    ((deleteTask_missing_idempotent tasks (idRequest "7")).1 (by decide)).1,
    ((deleteTask_missing_idempotent tasks (idRequest "7")).1 (by decide)).2.2.1,
    (deleteTask_missing_idempotent tasks (idRequest "1")).2.1⟩

/-- C7, as stated, fails: with the start set and the id 7, which is not a key, `getTask`
and `deleteTask` answer 400, but the body is not the text `task with given id not found`. -/
theorem notFound_message_counterexample :
    (idRequest "7").URLParam "id" ∉ tasks ∧
    (getTask .new (idRequest "7") tasks).1.status = some 400 ∧
    (getTask .new (idRequest "7") tasks).1.body ≠ "task with given id not found" ∧
    (deleteTask .new (idRequest "7") tasks).1.status = some 400 ∧
    (deleteTask .new (idRequest "7") tasks).1.body ≠ "task with given id not found" := by
  decide

/-- C7, amended. Not-found response: for every map and every id that is not a key of it,
`getTask` answers with status 400 (not 404), content type `text/plain; charset=utf-8` and the
fixed message `Задача с указанным id отсутствует` followed by a line feed, and `deleteTask`
gives the same answer; both leave the map as it was. -/
theorem notFound_response (store : Store) (r : Request) (h : r.URLParam "id" ∉ store) :
    (getTask .new r store).1.status = some 400 ∧
    (getTask .new r store).1.status ≠ some 404 ∧
    (getTask .new r store).1.body = "Задача с указанным id отсутствует\n" ∧
    (getTask .new r store).1.header.lookup "Content-Type" = some "text/plain; charset=utf-8" ∧
    deleteTask .new r store = getTask .new r store ∧
    (getTask .new r store).2 = store := by
  have hl := lookup_none_of_not_mem store _ h
  rw [deleteTask_of_lookup_none r store hl, getTask_of_lookup_none r store hl, httpError_new]
  refine ⟨rfl, ?_, notFoundMessage_line, errorHeader_contentType, rfl, rfl⟩
  show some StatusBadRequest ≠ some 404
  decide

theorem notFound_response_witness :
    (idRequest "7").URLParam "id" ∉ tasks ∧
    (getTask .new (idRequest "7") tasks).1.body = "Задача с указанным id отсутствует\n" ∧
    deleteTask .new (idRequest "7") tasks = getTask .new (idRequest "7") tasks :=
  ⟨by decide,
    (notFound_response tasks (idRequest "7") (by decide)).2.2.1,
    (notFound_response tasks (idRequest "7") (by decide)).2.2.2.2.1⟩

/-- C8, as stated, fails: from the start set, after one successful `postTask` (N = 1, the
example task with ID 3), `getTasks` writes the members with the keys 1, 2 and 3, and its
body is not the JSON text of any mapping with exactly one entry. -/
theorem list_completeness_counterexample :
    decoded sampleUnmarshal (bodyRequest exampleBody) = some exampleTask ∧
    (getTasks .new plainRequest
      (run sampleUnmarshal tasks (postCalls [bodyRequest exampleBody]))).1.body =
      encodeObject (sortedEntries
        (run sampleUnmarshal tasks (postCalls [bodyRequest exampleBody]))) ∧
    (sortedEntries (run sampleUnmarshal tasks (postCalls [bodyRequest exampleBody]))).map
      Prod.fst = ["1", "2", "3"] ∧
    ¬ ∃ members : List (String × Task), members.length = 1 ∧
      (getTasks .new plainRequest
        (run sampleUnmarshal tasks (postCalls [bodyRequest exampleBody]))).1.body =
        encodeObject members := by
  refine ⟨by decide, by rw [getTasks_new], by decide, ?_⟩
  rintro ⟨members, hlen, hbody⟩
  rw [getTasks_new] at hbody
  have hm := encodeObject_injective hbody
  have h3 : (sortedEntries
      (run sampleUnmarshal tasks (postCalls [bodyRequest exampleBody]))).length = 3 := by
    decide
  rw [hm, hlen] at h3
  exact absurd h3 (by decide)

/-- C8, amended. List completeness: starting from the map the service has at startup (the
tasks 1 and 2), after N successful `postTask` calls whose tasks have pairwise distinct IDs,
`getTasks` answers 200 with a JSON mapping whose keys are the N posted IDs together with
those of the startup keys 1 and 2 that were not posted: N entries plus one for each such
startup key; every posted task is the member under its ID. -/
theorem getTasks_after_posts (jsonUnmarshal : List UInt8 → Except String Task)
    (rs : List Request) (ts : List Task) (get : Request)
    (hdec : rs.map (decoded jsonUnmarshal) = ts.map some)
    (hnodup : (ts.map Task.ID).Nodup) :
    (getTasks .new get (run jsonUnmarshal tasks (postCalls rs))).1.status = some 200 ∧
    (getTasks .new get (run jsonUnmarshal tasks (postCalls rs))).1.body =
      encodeObject (sortedEntries (run jsonUnmarshal tasks (postCalls rs))) ∧
    ((sortedEntries (run jsonUnmarshal tasks (postCalls rs))).map Prod.fst).Perm
      (ts.map Task.ID ++ ["1", "2"].filter fun k => decide (k ∉ ts.map Task.ID)) ∧
    (sortedEntries (run jsonUnmarshal tasks (postCalls rs))).length =
      ts.length + (["1", "2"].filter fun k => decide (k ∉ ts.map Task.ID)).length ∧
    (∀ t ∈ ts, (t.ID, t) ∈ sortedEntries (run jsonUnmarshal tasks (postCalls rs))) := by
  rw [getTasks_new, run_postCalls jsonUnmarshal rs ts tasks hdec]
  have hk : tasks.keys = ["1", "2"] := by decide
  have hperm := (sortedEntries_keys_perm (insertAll tasks ts)).trans
    (keys_insertAll_perm ts tasks hnodup)
  rw [hk] at hperm
  refine ⟨rfl, rfl, hperm, ?_, ?_⟩
  · have hlen := hperm.length_eq
    simpa using hlen
  · intro t ht
    exact (mem_sortedEntries _ _ _).2 (lookup_insertAll_of_mem ts tasks hnodup t ht)

theorem getTasks_after_posts_witness :
    [bodyRequest exampleBody, bodyRequest emptyIdBody].map (decoded sampleUnmarshal) =
      [exampleTask, emptyIdTask].map some ∧
    ([exampleTask, emptyIdTask].map Task.ID).Nodup ∧
    (sortedEntries (run sampleUnmarshal tasks
      (postCalls [bodyRequest exampleBody, bodyRequest emptyIdBody]))).length = 2 + 2 :=
  ⟨by decide, by decide,
    (getTasks_after_posts sampleUnmarshal [bodyRequest exampleBody, bodyRequest emptyIdBody]
      [exampleTask, emptyIdTask] plainRequest (by decide) (by decide)).2.2.2.1⟩

/-- C9. List returns the full map and never fails: for every map, `getTasks` answers 200
with content type `application/json`; its body is the JSON object of the members written
for the map, one member per key, a key with a task being a member exactly when the map
holds the task under the key, and no other member list has that text; the map is left as
it was, and `json.Marshal` reports no error, so the 500 branch is not taken. -/
theorem getTasks_full (r : Request) (store : Store) :
    (getTasks .new r store).1.status = some 200 ∧
    (getTasks .new r store).1.header.lookup "Content-Type" = some "application/json" ∧
    (getTasks .new r store).1.body = encodeObject (sortedEntries store) ∧
    (∀ k t, (k, t) ∈ sortedEntries store ↔ store.lookup k = some t) ∧
    ((sortedEntries store).map Prod.fst).Nodup ∧
    (sortedEntries store).length = store.keys.length ∧
    (∀ members, (getTasks .new r store).1.body = encodeObject members →
      members = sortedEntries store) ∧
    (getTasks .new r store).2 = store ∧
    (∀ err, jsonMarshalTasks store ≠ .error err) ∧
    (getTasks .new r store).1.status ≠ some 500 := by
  rw [getTasks_new]
  refine ⟨rfl, jsonHeader_contentType, rfl, mem_sortedEntries store,
    sortedEntries_keys_nodup store, sortedEntries_length store, ?_, rfl, ?_, ?_⟩
  · intro members h
    exact (encodeObject_injective h).symm
  · intro err h
    simp [jsonMarshalTasks] at h
  · show some 200 ≠ some 500
    decide

/-- C10. Key/ID consistency invariant: in the start set and in every map reached from it by
any sequence of `getTasks`, `postTask`, `getTask` and `deleteTask` calls, successful or
failing, every task stored under a key `k` has the ID `k`; hence a `getTask` with id `k`
that answers 200 returns the JSON text of a task whose ID is `k`. -/
theorem key_id_invariant (jsonUnmarshal : List UInt8 → Except String Task)
    (calls : List (Route × Request)) :
    (∀ k t, (run jsonUnmarshal tasks calls).lookup k = some t → t.ID = k) ∧
    (∀ get : Request,
      (getTask .new get (run jsonUnmarshal tasks calls)).1.status = some 200 →
        ∃ t, t.ID = get.URLParam "id" ∧
          (getTask .new get (run jsonUnmarshal tasks calls)).1.body = encodeTask t) := by
  have hinv := keysMatch_run jsonUnmarshal calls tasks keysMatch_tasks
  refine ⟨hinv, ?_⟩
  intro get hst
  cases hl : (run jsonUnmarshal tasks calls).lookup (get.URLParam "id") with
  | none =>
    rw [getTask_of_lookup_none get _ hl, httpError_new] at hst
    have hst : some StatusBadRequest = some 200 := hst
    exact absurd hst (by decide)
  | some t =>
    rw [getTask_of_lookup_some get _ t hl]
    exact ⟨t, hinv _ t hl, rfl⟩

theorem key_id_invariant_witness :
    (run sampleUnmarshal tasks
      [(Route.postTask, bodyRequest exampleBody), (Route.deleteTask, idRequest "1"),
        (Route.getTask, idRequest "9"), (Route.postTask, bodyRequest brokenBody),
        (Route.getTasks, plainRequest)]).lookup "3" = some exampleTask ∧
    exampleTask.ID = "3" :=
  ⟨by decide,
    (key_id_invariant sampleUnmarshal
      [(Route.postTask, bodyRequest exampleBody), (Route.deleteTask, idRequest "1"),
        (Route.getTask, idRequest "9"), (Route.postTask, bodyRequest brokenBody),
        (Route.getTasks, plainRequest)]).1 "3" exampleTask (by decide)⟩

end TaskService
